import Mathlib

/-!
Verification of `src/ml_utils/classification.py`.

The file is glue code over an external statistics library (sklearn) and a
plotting library (matplotlib/seaborn).  The embedding below models the
repository's own logic faithfully and treats the library calls as inputs:

* `find_threshold` receives the ROC curve data (`fpr`, `tpr`, `thresholds`,
  three equal-length arrays as returned by `roc_curve`) and performs the
  numpy boolean-mask selection
  `thresholds[(fpr <= fpr_below) & (tpr >= tpr_above)]`.
* `confusion_matrix` (sklearn's counting semantics: labels are the sorted
  distinct values occurring in either argument, entry `(i, j)` counts the
  samples with true label `i` and predicted label `j`) is embedded directly,
  since several claims quantify over its concrete cell values.
* The plotting functions are modelled by the data they hand to the plotting
  library: heatmap cell matrices, tick positions, baseline values, per-class
  curve inputs, and subplot-grid layouts.
-/

/-- Curve points `(fpr, (tpr, threshold))` of a ROC curve, as the pointwise
zip of the three arrays returned by the library's `roc_curve`. -/
def rocTriples (fpr tpr thresholds : List ℚ) : List (ℚ × ℚ × ℚ) :=
  fpr.zip (tpr.zip thresholds)

/-- Embedding of `find_threshold` (classification.py, lines 41-56): the numpy
boolean-mask selection `thresholds[(fpr <= fpr_below) & (tpr >= tpr_above)]`,
phrased as filtering the pointwise triples of the curve and keeping the
threshold component. -/
def find_threshold (fpr tpr thresholds : List ℚ) (fpr_below tpr_above : ℚ) :
    List ℚ :=
  ((rocTriples fpr tpr thresholds).filter
    (fun p => decide (p.1 ≤ fpr_below) && decide (tpr_above ≤ p.2.1))).map
    (fun p => p.2.2)

/-- Embedding of `find_threshold` together with the shape checks numpy
performs: `&` on the two comparison masks and mask-indexing of `thresholds`
require the three arrays to have equal lengths, and numpy raises otherwise.
`roc_curve` always returns equal-length arrays, so on library output the
error branch is unreachable. -/
def find_threshold_checked (fpr tpr thresholds : List ℚ)
    (fpr_below tpr_above : ℚ) : Except String (List ℚ) :=
  if fpr.length = tpr.length ∧ tpr.length = thresholds.length then
    .ok (find_threshold fpr tpr thresholds fpr_below tpr_above)
  else
    .error "operands could not be broadcast together"

theorem rocTriples_length (fpr tpr thresholds : List ℚ)
    (h1 : fpr.length = thresholds.length) (h2 : tpr.length = thresholds.length) :
    (rocTriples fpr tpr thresholds).length = thresholds.length := by
  simp only [rocTriples, List.length_zip]
  omega

theorem rocTriples_get (fpr tpr thresholds : List ℚ) (i : ℕ)
    (hf : i < fpr.length) (ht : i < tpr.length) (hth : i < thresholds.length)
    (hz : i < (rocTriples fpr tpr thresholds).length) :
    (rocTriples fpr tpr thresholds).get ⟨i, hz⟩ =
      (fpr.get ⟨i, hf⟩, (tpr.get ⟨i, ht⟩, thresholds.get ⟨i, hth⟩)) := by
  simp [rocTriples, List.get_eq_getElem, List.getElem_zip]

theorem mem_find_threshold (fpr tpr thresholds : List ℚ) (cap floor t : ℚ) :
    t ∈ find_threshold fpr tpr thresholds cap floor ↔
      ∃ p ∈ rocTriples fpr tpr thresholds,
        p.2.2 = t ∧ p.1 ≤ cap ∧ floor ≤ p.2.1 := by
  simp only [find_threshold, List.mem_map, List.mem_filter, Bool.and_eq_true,
    decide_eq_true_eq]
  constructor
  · rintro ⟨p, ⟨hp, hc, hf⟩, ht⟩
    exact ⟨p, hp, ht, hc, hf⟩
  · rintro ⟨p, hp, ht, hc, hf⟩
    exact ⟨p, ⟨hp, hc, hf⟩, ht⟩

/-- C2: every value returned by `find_threshold` is an element of the
threshold array produced by the library's ROC-curve computation; the
function never synthesizes a threshold absent from that grid. -/
theorem find_threshold_subset_of_curve (fpr tpr thresholds : List ℚ)
    (fpr_below tpr_above t : ℚ)
    (ht : t ∈ find_threshold fpr tpr thresholds fpr_below tpr_above) :
    t ∈ thresholds := by
  obtain ⟨p, hp, hpt, -, -⟩ := (mem_find_threshold _ _ _ _ _ _).mp ht
  obtain ⟨-, hmem⟩ := List.of_mem_zip hp
  obtain ⟨-, hmem2⟩ := List.of_mem_zip hmem
  exact hpt ▸ hmem2

/-- Witness for C2 on a three-point ROC curve
(`fpr = [0, 0, 1]`, `tpr = [0, 1, 1]`, `thresholds = [3, 2, 1]`). -/
theorem find_threshold_subset_of_curve_witness :
    (2 : ℚ) ∈ find_threshold [0, 0, 1] [0, 1, 1] [3, 2, 1] 0 1 ∧
      (2 : ℚ) ∈ ([3, 2, 1] : List ℚ) :=
  ⟨by decide,
    find_threshold_subset_of_curve [0, 0, 1] [0, 1, 1] [3, 2, 1] 0 1
      2 (by decide)⟩

/-- C3: when no point of the ROC curve satisfies both constraints, the
function returns `.ok []`: an empty sequence, and the only fallible step
(numpy shape checking) does not fire on the equal-length arrays the
library produces. -/
theorem find_threshold_empty_when_unsatisfiable (fpr tpr thresholds : List ℚ)
    (cap floor : ℚ)
    (h1 : fpr.length = tpr.length) (h2 : tpr.length = thresholds.length)
    (h : ∀ p ∈ rocTriples fpr tpr thresholds, ¬(p.1 ≤ cap ∧ floor ≤ p.2.1)) :
    find_threshold_checked fpr tpr thresholds cap floor = .ok [] := by
  rw [find_threshold_checked, if_pos ⟨h1, h2⟩]
  have hnil : find_threshold fpr tpr thresholds cap floor = [] := by
    rw [List.eq_nil_iff_forall_not_mem]
    intro t ht
    obtain ⟨p, hp, -, hc, hf⟩ := (mem_find_threshold _ _ _ _ _ _).mp ht
    exact h p hp ⟨hc, hf⟩
  rw [hnil]

/-- Witness for C3: with `cap = 0`, `floor = 1` no point of the curve
`fpr = [0, 1]`, `tpr = [0, 1]`, `thresholds = [2, 1]` satisfies both
constraints, and the checked run returns `.ok []`. -/
theorem find_threshold_empty_when_unsatisfiable_witness :
    find_threshold_checked [0, 1] [0, 1] [2, 1] 0 1 = .ok [] :=
  find_threshold_empty_when_unsatisfiable [0, 1] [0, 1] [2, 1] 0 1
    (by decide) (by decide) (by decide)

/-- C10: the returned sequence is an order-preserving subsequence
(`List.Sublist`) of the library's threshold array: the boolean mask keeps
the surviving positions in their original relative order. -/
theorem find_threshold_sublist (fpr tpr thresholds : List ℚ)
    (cap floor : ℚ)
    (h1 : fpr.length = thresholds.length) (h2 : tpr.length = thresholds.length) :
    (find_threshold fpr tpr thresholds cap floor).Sublist thresholds := by
  have hmap :
      (rocTriples fpr tpr thresholds).map (fun p => p.2.2) = thresholds := by
    have hsnd : (fun p : ℚ × ℚ × ℚ => p.2.2) = Prod.snd ∘ Prod.snd := rfl
    rw [hsnd, ← List.map_map, rocTriples,
      List.map_snd_zip _ _ (by rw [List.length_zip]; omega),
      List.map_snd_zip _ _ (by omega)]
  have hsub := List.Sublist.map (fun p : ℚ × ℚ × ℚ => p.2.2)
    (List.filter_sublist (l := rocTriples fpr tpr thresholds)
      (p := fun p => decide (p.1 ≤ cap) && decide (floor ≤ p.2.1)))
  rw [hmap] at hsub
  exact hsub

/-- C1: a threshold of the ROC curve is returned exactly when its FPR is at
most the cap and its TPR at least the floor.  The hypotheses are the
library's invariants: `roc_curve` returns three equal-length arrays whose
thresholds strictly decrease (hence are pairwise distinct). -/
theorem find_threshold_exact (fpr tpr thresholds : List ℚ) (cap floor : ℚ)
    (h1 : fpr.length = thresholds.length) (h2 : tpr.length = thresholds.length)
    (hnd : thresholds.Nodup) (i : ℕ) (hi : i < thresholds.length) :
    thresholds.get ⟨i, hi⟩ ∈ find_threshold fpr tpr thresholds cap floor ↔
      (fpr.get ⟨i, by omega⟩ ≤ cap ∧ floor ≤ tpr.get ⟨i, by omega⟩) := by
  have hzlen : (rocTriples fpr tpr thresholds).length = thresholds.length :=
    rocTriples_length fpr tpr thresholds h1 h2
  rw [mem_find_threshold]
  constructor
  · rintro ⟨p, hp, hpt, hc, hf⟩
    obtain ⟨⟨j, hj⟩, hpj⟩ := List.mem_iff_get.mp hp
    have hjth : j < thresholds.length := by omega
    rw [rocTriples_get fpr tpr thresholds j (by omega) (by omega) hjth hj] at hpj
    subst hpj
    have hji : (⟨j, hjth⟩ : Fin thresholds.length) = ⟨i, hi⟩ :=
      (List.Nodup.get_inj_iff hnd).mp hpt
    have hj_eq : j = i := by
      simpa using congrArg Fin.val hji
    subst hj_eq
    exact ⟨hc, hf⟩
  · rintro ⟨hc, hf⟩
    refine ⟨(fpr.get ⟨i, by omega⟩, (tpr.get ⟨i, by omega⟩,
      thresholds.get ⟨i, hi⟩)), ?_, rfl, hc, hf⟩
    rw [← rocTriples_get fpr tpr thresholds i (by omega) (by omega) hi (by omega)]
    exact List.get_mem _ _ _

/-- Witness for C1: on the curve `fpr = [0, 0, 1]`, `tpr = [0, 1, 1]`,
`thresholds = [3, 2, 1]` with cap 0 and floor 1, the threshold at index 1
is returned exactly because `fpr = 0 ≤ 0` and `tpr = 1 ≥ 1` there. -/
theorem find_threshold_exact_witness :
    ([3, 2, 1] : List ℚ).Nodup ∧
      (([3, 2, 1] : List ℚ).get ⟨1, by decide⟩ ∈
          find_threshold [0, 0, 1] [0, 1, 1] [3, 2, 1] 0 1 ↔
        (([0, 0, 1] : List ℚ).get ⟨1, by decide⟩ ≤ 0 ∧
          1 ≤ ([0, 1, 1] : List ℚ).get ⟨1, by decide⟩)) :=
  ⟨by decide,
    find_threshold_exact [0, 0, 1] [0, 1, 1] [3, 2, 1] 0 1
      (by decide) (by decide) (by decide) 1 (by decide)⟩

/-- Witness for C10: the selection on the curve `fpr = [0, 0, 1]`,
`tpr = [0, 1, 1]`, `thresholds = [3, 2, 1]` is a sublist of the thresholds. -/
theorem find_threshold_sublist_witness :
    (find_threshold [0, 0, 1] [0, 1, 1] [3, 2, 1] 0 1).Sublist
      ([3, 2, 1] : List ℚ) :=
  find_threshold_sublist [0, 0, 1] [0, 1, 1] [3, 2, 1] 0 1
    (by decide) (by decide)

/-- Sorted distinct values of a list, ascending: the semantics of
`np.unique` (and of `np.sort(series.unique())`). -/
def sortedUnique (l : List ℤ) : List ℤ :=
  l.dedup.insertionSort (· ≤ ·)

/-- Label set used by sklearn's `confusion_matrix`: the sorted distinct
values occurring in either the true or the predicted labels. -/
def cmLabels (y_true y_pred : List ℤ) : List ℤ :=
  sortedUnique (y_true ++ y_pred)

/-- Embedding of sklearn's `confusion_matrix`: entry `(i, j)` counts the
samples whose true label is the `i`-th and whose predicted label is the
`j`-th of the sorted distinct labels. -/
def confusion_matrix (y_true y_pred : List ℤ) : List (List ℕ) :=
  (cmLabels y_true y_pred).map (fun a =>
    (cmLabels y_true y_pred).map (fun b =>
      (y_true.zip y_pred).countP (fun q => decide (q.1 = a) && decide (q.2 = b))))

/-- Embedding of numpy's `.T` on a rectangular matrix stored row-major:
row `j` of the result is column `j` of the argument. -/
def npTranspose (m : List (List ℕ)) : List (List ℕ) :=
  (List.range (m.headD []).length).map (fun j => m.map (fun row => row.getD j 0))

/-- The cell matrix `confusion_matrix_visual` (classification.py, lines
26-30) hands to `sns.heatmap`: the transpose `mat.T` of the library's
confusion matrix. -/
def confusion_matrix_visual_data (y_true y_pred : List ℤ) : List (List ℕ) :=
  npTranspose (confusion_matrix y_true y_pred)

/-- Entry `(i, j)` of a row-major matrix, 0 outside the stored cells. -/
def cell (m : List (List ℕ)) (i j : ℕ) : ℕ :=
  (m.getD i []).getD j 0

/-- Tick positions `np.arange(len(class_labels)) + 0.5` set on both axes by
`confusion_matrix_visual` (classification.py, lines 33-37). -/
def tick_marks (class_labels : List String) : List ℚ :=
  (List.range class_labels.length).map (fun k : ℕ => (k : ℚ) + 1/2)

/-- Number of annotated heatmap cells: with `annot=True` seaborn annotates
every stored cell of the matrix it is given. -/
def annotatedCellCount (y_true y_pred : List ℤ) : ℕ :=
  ((confusion_matrix_visual_data y_true y_pred).map List.length).sum

/-- Run of `confusion_matrix_visual` with the one fallible step of the tick
block modelled: matplotlib's `set_xticklabels`/`set_yticklabels` raise when
the number of labels differs from the number of tick positions previously
set.  Both counts come from `class_labels`, so they always agree. -/
def confusion_matrix_visual_run (y_true y_pred : List ℤ)
    (class_labels : List String) :
    Except String (List (List ℕ) × List ℚ × List String) :=
  let data := confusion_matrix_visual_data y_true y_pred
  let ticks := tick_marks class_labels
  if ticks.length = class_labels.length then
    .ok (data, ticks, class_labels)
  else
    .error "ValueError: number of labels differs from number of ticks"

theorem npTranspose_cell (m : List (List ℕ)) (i j : ℕ)
    (hi : i < (m.headD []).length) (hj : j < m.length) :
    cell (npTranspose m) i j = (m.getD j []).getD i 0 := by
  have hrow : (npTranspose m).getD i [] = m.map (fun row => row.getD i 0) := by
    unfold npTranspose
    rw [List.getD_eq_getElem _ _ (by simpa using hi), List.getElem_map,
      List.getElem_range]
  unfold cell
  rw [hrow, List.getD_eq_getElem _ _ (by simpa using hj), List.getElem_map,
    List.getD_eq_getElem _ _ hj]

theorem confusion_matrix_length (y_true y_pred : List ℤ) :
    (confusion_matrix y_true y_pred).length = (cmLabels y_true y_pred).length := by
  simp [confusion_matrix]

theorem confusion_matrix_head_length (y_true y_pred : List ℤ)
    (h : 0 < (cmLabels y_true y_pred).length) :
    ((confusion_matrix y_true y_pred).headD []).length =
      (cmLabels y_true y_pred).length := by
  rcases hls : cmLabels y_true y_pred with - | ⟨a, t⟩
  · rw [hls] at h
    simp at h
  · rw [confusion_matrix, hls]
    simp

/-- C4: the heatmap cell at row `i`, column `j` equals the library confusion
matrix's entry at row `j`, column `i` (`mat.T` is rendered), and on
`y_true = [0,1,1,0]`, `y_pred = [0,1,0,0]` the rendered cells are exactly
`confusion_matrix([0,1,1,0],[0,1,0,0]).T = [[2,1],[0,1]]`. -/
theorem confusion_matrix_visual_transpose :
    (∀ (y_true y_pred : List ℤ) (i j : ℕ),
        i < (cmLabels y_true y_pred).length →
        j < (cmLabels y_true y_pred).length →
        cell (confusion_matrix_visual_data y_true y_pred) i j =
          cell (confusion_matrix y_true y_pred) j i) ∧
      confusion_matrix [0, 1, 1, 0] [0, 1, 0, 0] = [[2, 0], [1, 1]] ∧
      confusion_matrix_visual_data [0, 1, 1, 0] [0, 1, 0, 0] = [[2, 1], [0, 1]] := by
  refine ⟨?_, by decide, by decide⟩
  intro y_true y_pred i j hi hj
  have hN := confusion_matrix_length y_true y_pred
  have hh := confusion_matrix_head_length y_true y_pred (by omega)
  unfold confusion_matrix_visual_data
  rw [npTranspose_cell _ _ _ (by omega) (by omega)]
  rfl

/-- Witness for C4: instantiation of the transpose property at the spec's
example input and cell `(0, 1)`. -/
theorem confusion_matrix_visual_transpose_witness :
    (0 : ℕ) < (cmLabels [0, 1, 1, 0] [0, 1, 0, 0]).length ∧
      (1 : ℕ) < (cmLabels [0, 1, 1, 0] [0, 1, 0, 0]).length ∧
      cell (confusion_matrix_visual_data [0, 1, 1, 0] [0, 1, 0, 0]) 0 1 =
        cell (confusion_matrix [0, 1, 1, 0] [0, 1, 0, 0]) 1 0 :=
  ⟨by decide, by decide,
    confusion_matrix_visual_transpose.1 [0, 1, 1, 0] [0, 1, 0, 0] 0 1
      (by decide) (by decide)⟩

/-- C9 (amended): the heatmap has exactly `N * N` annotated cells for `N`
unique labels, and the tick count on each axis equals the number of
provided display names `class_labels` (not `N`; the two agree only when
the caller provides exactly one name per unique label). -/
theorem confusion_matrix_visual_cells_and_ticks (y_true y_pred : List ℤ)
    (class_labels : List String) :
    annotatedCellCount y_true y_pred =
        (cmLabels y_true y_pred).length * (cmLabels y_true y_pred).length ∧
      (tick_marks class_labels).length = class_labels.length := by
  constructor
  · rcases Nat.eq_zero_or_pos (cmLabels y_true y_pred).length with h0 | hpos
    · have hnil : cmLabels y_true y_pred = [] := List.length_eq_zero.mp h0
      simp [annotatedCellCount, confusion_matrix_visual_data, npTranspose,
        confusion_matrix, hnil]
    · have hh := confusion_matrix_head_length y_true y_pred hpos
      have hN := confusion_matrix_length y_true y_pred
      unfold annotatedCellCount confusion_matrix_visual_data npTranspose
      rw [List.map_map, hh]
      have hcomp : (List.length ∘ fun j =>
          (confusion_matrix y_true y_pred).map (fun row => row.getD j 0)) =
            fun _ : ℕ => (cmLabels y_true y_pred).length := by
        funext j
        simp [hN]
      rw [hcomp]
      rw [show (fun _ : ℕ => (cmLabels y_true y_pred).length) =
        Function.const ℕ (cmLabels y_true y_pred).length from rfl]
      rw [List.map_const, List.sum_replicate, smul_eq_mul, List.length_range]
  · rw [tick_marks, List.length_map, List.length_range]

/-- Counterexample to C9 as stated: with `y_true = [0,1,1,0]`,
`y_pred = [0,1,0,0]` (two unique labels) and three display names, the code
sets three tick marks per axis, not two. -/
theorem confusion_matrix_visual_tick_count_counterexample :
    (tick_marks ["a", "b", "c"]).length ≠
      (cmLabels [0, 1, 1, 0] [0, 1, 0, 0]).length := by
  decide

/-- Counterexample to C8 as stated: with three unique labels and only two
display names the run completes and returns its data; no step of the tick
block indexes `class_labels` out of range, because both the tick positions
and the tick labels are derived from `class_labels` itself. -/
theorem confusion_matrix_visual_no_failure_counterexample :
    (["a", "b"] : List String).length <
        (cmLabels [0, 1, 2] [0, 1, 2]).length ∧
      confusion_matrix_visual_run [0, 1, 2] [0, 1, 2] ["a", "b"] =
        .ok (confusion_matrix_visual_data [0, 1, 2] [0, 1, 2],
          tick_marks ["a", "b"], ["a", "b"]) :=
  ⟨by decide, rfl⟩

/-- C8 (amended): when the unique labels outnumber the provided display
names, `confusion_matrix_visual` does not raise: it completes, setting only
`class_labels.length` tick marks per axis — fewer than the `N` heatmap
rows/columns, so trailing classes are left unlabeled. -/
theorem confusion_matrix_visual_short_labels (y_true y_pred : List ℤ)
    (class_labels : List String)
    (h : class_labels.length < (cmLabels y_true y_pred).length) :
    confusion_matrix_visual_run y_true y_pred class_labels =
        .ok (confusion_matrix_visual_data y_true y_pred,
          tick_marks class_labels, class_labels) ∧
      (tick_marks class_labels).length < (cmLabels y_true y_pred).length := by
  have hlen : (tick_marks class_labels).length = class_labels.length := by
    rw [tick_marks, List.length_map, List.length_range]
  refine ⟨?_, by omega⟩
  rw [confusion_matrix_visual_run, if_pos hlen]

/-- Witness for the amended C8 at three unique labels and two names. -/
theorem confusion_matrix_visual_short_labels_witness :
    (["a", "b"] : List String).length <
        (cmLabels [0, 1, 2] [0, 1, 2]).length ∧
      (confusion_matrix_visual_run [0, 1, 2] [0, 1, 2] ["a", "b"] =
          .ok (confusion_matrix_visual_data [0, 1, 2] [0, 1, 2],
            tick_marks ["a", "b"], ["a", "b"]) ∧
        (tick_marks ["a", "b"]).length <
          (cmLabels [0, 1, 2] [0, 1, 2]).length) :=
  ⟨by decide,
    confusion_matrix_visual_short_labels [0, 1, 2] [0, 1, 2] ["a", "b"]
      (by decide)⟩

/-- Baseline value drawn by `plot_pr_curve` (classification.py, line 98):
`sum(y_test == positive_class) / len(y_test)`, numpy's sum of the boolean
indicator of equality with the positive class, divided by the length. -/
def pr_baseline (y_test : List ℤ) (positive_class : ℤ) : ℚ :=
  (y_test.map (fun y => if y = positive_class then (1 : ℚ) else 0)).sum /
    (y_test.length : ℚ)

/-- C5: the horizontal baseline of `plot_pr_curve` equals the positive-class
prevalence — the count of entries equal to `positive_class` divided by the
total number of entries — and on `y_test = [1,1,0,0]`, `positive_class = 1`
it equals `1/2`. -/
theorem plot_pr_curve_baseline_prevalence :
    (∀ (y_test : List ℤ) (positive_class : ℤ),
        pr_baseline y_test positive_class =
          (y_test.count positive_class : ℚ) / (y_test.length : ℚ)) ∧
      pr_baseline [1, 1, 0, 0] 1 = 1 / 2 := by
  have hsum : ∀ (y : List ℤ) (c : ℤ),
      (y.map (fun v => if v = c then (1 : ℚ) else 0)).sum = (y.count c : ℚ) := by
    intro y c
    induction y with
    | nil => simp
    | cons a t ih =>
      by_cases hac : a = c
      · simp [hac, ih, List.count_cons, add_comm]
      · simp [hac, ih, List.count_cons]
  constructor
  · intro y c
    rw [pr_baseline, hsum]
  · norm_num [pr_baseline]

/-- Row count `np.ceil(len(class_labels) / 3).astype(int)` of the subplot
grid in `plot_multi_class_pr_curve` (classification.py, line 162). -/
def rowCount (K : ℕ) : ℕ :=
  (Int.ceil ((K : ℚ) / 3)).toNat

/-- Number of subplot cells created by `plt.subplots(row_count, 3, ...)`. -/
def gridCells (K : ℕ) : ℕ :=
  rowCount K * 3

/-- Indices of the cells removed by `fig.delaxes`: the trailing positions
`len(class_labels) .. len(axes) - 1` of the flattened grid. -/
def deletedCells (K : ℕ) : List ℕ :=
  List.range' K (gridCells K - K)

/-- Indices of the flattened sequence of subplot surfaces the function
returns: every created cell, including deleted ones. -/
def returnedAxes (K : ℕ) : List ℕ :=
  List.range (gridCells K)

theorem rowCount_eq (K : ℕ) : rowCount K = (K + 2) / 3 := by
  have h3 : (0 : ℚ) < 3 := by norm_num
  have key : ∀ n : ℕ, 3 * n < K + 3 → K ≤ 3 * n → ⌈(K : ℚ) / 3⌉ = (n : ℤ) := by
    intro n h1 h2
    rw [Int.ceil_eq_iff]
    constructor
    · rw [lt_div_iff₀ h3]
      have hq : (3 : ℚ) * (n : ℚ) < (K : ℚ) + 3 := by exact_mod_cast h1
      push_cast
      linarith
    · rw [div_le_iff₀ h3]
      have hq : (K : ℚ) ≤ 3 * (n : ℚ) := by exact_mod_cast h2
      push_cast
      linarith
  rw [rowCount, key ((K + 2) / 3) (by omega) (by omega)]
  exact Int.toNat_natCast _

/-- C6: for `K` distinct class labels the grid has exactly
`ceil(K/3) * 3` cells (`ceil(K/3)` rows of 3 columns), exactly
`ceil(K/3) * 3 - K` trailing cells are deleted, and the returned flattened
sequence covers all cells, the deleted ones included. -/
theorem plot_multi_class_pr_curve_grid (y_test : List ℤ) :
    gridCells (sortedUnique y_test).length =
        ((sortedUnique y_test).length + 2) / 3 * 3 ∧
      (sortedUnique y_test).length ≤ gridCells (sortedUnique y_test).length ∧
      (deletedCells (sortedUnique y_test).length).length =
        gridCells (sortedUnique y_test).length - (sortedUnique y_test).length ∧
      (∀ i ∈ deletedCells (sortedUnique y_test).length,
        (sortedUnique y_test).length ≤ i ∧
          i < gridCells (sortedUnique y_test).length) ∧
      (returnedAxes (sortedUnique y_test).length).length =
        gridCells (sortedUnique y_test).length ∧
      deletedCells (sortedUnique y_test).length ⊆
        returnedAxes (sortedUnique y_test).length := by
  have hceil : ∀ K : ℕ, gridCells K = (K + 2) / 3 * 3 := by
    intro K
    rw [gridCells, rowCount_eq]
  have hle : ∀ K : ℕ, K ≤ gridCells K := by
    intro K
    rw [hceil]
    omega
  have hmem : ∀ K i : ℕ, i ∈ deletedCells K → K ≤ i ∧ i < gridCells K := by
    intro K i hi
    rw [deletedCells] at hi
    have := List.mem_range'_1.mp hi
    have := hle K
    omega
  refine ⟨hceil _, hle _, ?_, fun i hi => hmem _ i hi, ?_, ?_⟩
  · rw [deletedCells, List.length_range']
  · rw [returnedAxes, List.length_range]
  · intro i hi
    have := hmem _ i hi
    rw [returnedAxes, List.mem_range]
    omega

/-- Per-class one-vs-rest binarization `np.where(y_test == class_label, 1, 0)`
(classification.py, line 135). -/
def binarize (y_test : List ℤ) (c : ℤ) : List ℕ :=
  y_test.map (fun v => if v = c then 1 else 0)

/-- Column `i` of the probability table, `preds[:, i]`. -/
def column (preds : List (List ℚ)) (i : ℕ) : List ℚ :=
  preds.map (fun row => row.getD i 0)

/-- Drawing commands issued by `plot_multi_class_roc`: the single diagonal
baseline, then for each class (in iteration order) one curve carrying the
class value and the data handed to `roc_curve` — the binarized labels and
the class's probability column. -/
inductive ROCItem where
  | baseline : ROCItem
  | curve : ℤ → List ℕ → List ℚ → ROCItem
deriving DecidableEq

/-- Embedding of `plot_multi_class_roc` (classification.py, lines 131-138):
the baseline is drawn first, then the loop
`for i, class_label in enumerate(np.sort(y_test.unique()))` draws one
curve per class from `roc_curve(np.where(y_test == class_label, 1, 0),
preds[:, i])`. -/
def plot_multi_class_roc_items (y_test : List ℤ) (preds : List (List ℚ)) :
    List ROCItem :=
  ROCItem.baseline ::
    (sortedUnique y_test).enum.map
      (fun p => ROCItem.curve p.2 (binarize y_test p.2) (column preds p.1))

/-- C7: `plot_multi_class_roc` iterates over the distinct class labels in
ascending sorted order; the drawn items are one shared baseline (first, and
unique) followed by exactly one curve per class, where the `i`-th curve
carries the `i`-th sorted class value, the one-vs-rest binarized labels for
that class, and the `i`-th probability column. -/
theorem plot_multi_class_roc_per_class (y_test : List ℤ)
    (preds : List (List ℚ)) :
    List.Sorted (· ≤ ·) (sortedUnique y_test) ∧
      (sortedUnique y_test).Nodup ∧
      (∀ c : ℤ, c ∈ sortedUnique y_test ↔ c ∈ y_test) ∧
      (plot_multi_class_roc_items y_test preds).length =
        (sortedUnique y_test).length + 1 ∧
      (plot_multi_class_roc_items y_test preds).countP
          (fun it => match it with
            | ROCItem.baseline => true
            | ROCItem.curve _ _ _ => false) = 1 ∧
      (plot_multi_class_roc_items y_test preds)[0]? = some ROCItem.baseline ∧
      ∀ i : ℕ,
        (plot_multi_class_roc_items y_test preds)[i + 1]? =
          ((sortedUnique y_test)[i]?).map
            (fun c => ROCItem.curve c (binarize y_test c) (column preds i)) := by
  have hperm := List.perm_insertionSort (α := ℤ) (· ≤ ·) y_test.dedup
  refine ⟨List.sorted_insertionSort _ _, hperm.nodup_iff.mpr y_test.nodup_dedup,
    ?_, ?_, ?_, by rw [plot_multi_class_roc_items]; exact List.getElem?_cons_zero, ?_⟩
  · intro c
    rw [sortedUnique, hperm.mem_iff, List.mem_dedup]
  · simp [plot_multi_class_roc_items]
  · rw [plot_multi_class_roc_items, List.countP_cons]
    have h0 : ((sortedUnique y_test).enum.map
        (fun p => ROCItem.curve p.2 (binarize y_test p.2)
          (column preds p.1))).countP
          (fun it => match it with
            | ROCItem.baseline => true
            | ROCItem.curve _ _ _ => false) = 0 := by
      rw [List.countP_eq_zero]
      intro x hx
      obtain ⟨q, hq, rfl⟩ := List.mem_map.mp hx
      simp
    rw [h0]
    simp
  · intro i
    rw [plot_multi_class_roc_items, List.getElem?_cons_succ, List.getElem?_map,
      List.getElem?_enum, Option.map_map]
    rfl

/-- Witness for C6 at `y_test = [0, 1, 2, 3]` (four classes, grid of
2 rows × 3 columns = 6 cells): cell 4 is among the deleted trailing cells
and lies between `K = 4` and the cell count 6. -/
theorem plot_multi_class_pr_curve_grid_witness :
    (4 : ℕ) ∈ deletedCells (sortedUnique [0, 1, 2, 3]).length ∧
      ((sortedUnique [0, 1, 2, 3]).length ≤ 4 ∧
        4 < gridCells (sortedUnique [0, 1, 2, 3]).length) :=
  ⟨by rw [deletedCells, gridCells, rowCount_eq]; decide,
    (plot_multi_class_pr_curve_grid [0, 1, 2, 3]).2.2.2.1 4
      (by rw [deletedCells, gridCells, rowCount_eq]; decide)⟩

/-- Witness for C7 at `y_test = [2, 0, 1]` (sorted classes `[0, 1, 2]`):
the second drawn curve is for class `(sortedUnique [2, 0, 1])[1]? = 1`,
with its binarized labels and probability column 1. -/
theorem plot_multi_class_roc_per_class_witness :
    (plot_multi_class_roc_items [2, 0, 1]
        [[1, 2, 3], [4, 5, 6], [7, 8, 9]])[2]? =
      ((sortedUnique [2, 0, 1])[1]?).map
        (fun c => ROCItem.curve c (binarize [2, 0, 1] c)
          (column [[1, 2, 3], [4, 5, 6], [7, 8, 9]] 1)) :=
  (plot_multi_class_roc_per_class [2, 0, 1]
    [[1, 2, 3], [4, 5, 6], [7, 8, 9]]).2.2.2.2.2.2 1
